import Mathlib

/-!
Verification of the windowed-reduction subsystem
(`jax/_src/lax/windowed_reductions.py`).

Shape arithmetic, the monoid fast-path dispatcher, the packed dual-channel
lowering, the transpose / batching rules and the two `select_and_scatter_add`
lowering strategies are embedded as executable Lean definitions, and the
spec's claims about them are settled as theorems below.
-/

namespace WindowedReductions

/-! ### Shape arithmetic (spec §4.1, code lines 383-423) -/

/-- Modelled from the spec: `lax._dilate_shape` per dimension (the function
itself is not under `src/`); dilating an extent `n` by `d` inserts `d - 1`
gaps between elements, giving `1 + (n-1)*d` for `n > 0` and `0` otherwise. -/
def dilateDim (n d : Int) : Int := if n ≤ 0 then 0 else 1 + (n - 1) * d

/-- Modelled from the spec: `lax._dilate_shape`, applied elementwise. -/
def dilateShape (shape dil : List Int) : List Int := List.zipWith dilateDim shape dil

/-- Modelled from the spec: `core.sum_shapes` (not under `src/`): elementwise
sum of the (dilated) operand shape with the low and high padding. -/
def sumShapes (a lo hi : List Int) : List Int :=
  List.zipWith (fun x y => x + y) (List.zipWith (fun x y => x + y) a lo) hi

/-- Modelled from the spec: `core.stride_shape` (not under `src/`): per
dimension `floor((padded - window) / stride) + 1`, Python floor division. -/
def strideShape (padded window strides : List Int) : List Int :=
  List.zipWith (fun pw s => Int.fdiv pw s + 1)
    (List.zipWith (fun p w => p - w) padded window) strides

/-- Embedding of `reduce_window_shape_tuple` (lines 414-423): optionally dilate
the operand shape and window dimensions, add the padding, then stride. -/
def reduce_window_shape_tuple (operand_shape window_dimensions window_strides : List Int)
    (padding : List (Int × Int))
    (base_dilation window_dilation : Option (List Int)) : List Int :=
  let os := match base_dilation with
    | some bd => dilateShape operand_shape bd
    | none => operand_shape
  let wdims := match window_dilation with
    | some wdl => dilateShape window_dimensions wdl
    | none => window_dimensions
  strideShape (sumShapes os (padding.map Prod.fst) (padding.map Prod.snd))
    wdims window_strides

/-! ### Extended scalars

The floating-point dtype of the operands is idealized as integers extended
with the two infinite identity sentinels (`-inf` is the max-identity,
`+inf` the min-identity); NaN-free, which none of the claims exercise. -/

inductive XInt where
  | negInf : XInt
  | fin : Int → XInt
  | posInf : XInt
deriving DecidableEq

namespace XInt

def le : XInt → XInt → Bool
  | negInf, _ => true
  | _, posInf => true
  | fin a, fin b => a ≤ b
  | posInf, _ => false
  | _, negInf => false

def ge (a b : XInt) : Bool := le b a

def add : XInt → XInt → XInt
  | fin a, fin b => fin (a + b)
  | negInf, _ => negInf
  | _, negInf => negInf
  | posInf, _ => posInf
  | _, posInf => posInf

def maxv (a b : XInt) : XInt := if le a b then b else a

def minv (a b : XInt) : XInt := if le a b then a else b

end XInt

/-- The two admissible select predicates of `select_and_gather_add` /
`select_and_scatter_add` (`lax.ge_p` and `lax.le_p`). -/
inductive SelectPrim where
  | geP : SelectPrim
  | leP : SelectPrim
deriving DecidableEq

namespace SelectPrim

/-- `select_prim.bind(x, y)` for scalars. -/
def denote : SelectPrim → XInt → XInt → Bool
  | geP => XInt.ge
  | leP => XInt.le

/-- `lax._get_max_identity` for `ge_p`, `lax._get_min_identity` for `le_p`
(lines 594-595, 733-734, 805-806): for a floating dtype these are `-inf` /
`+inf`. -/
def identity : SelectPrim → XInt
  | geP => XInt.negInf
  | leP => XInt.posInf

end SelectPrim

/-! ### One-dimensional windowed-reduction semantics

Modelled from the spec: the execution of the ReduceWindow primitive itself is
delegated to the backend (§2, §4.3) and is not under `src/`; per output index
the combiner is folded over the window elements, with base-dilation gaps and
padding slots holding the initial value. -/

/-- Window geometry for one dimension. -/
structure Geom where
  window : Nat
  stride : Nat
  padLo : Int
  padHi : Int
  baseDil : Nat
  winDil : Nat
deriving DecidableEq

/-- Element of the base-dilated, padded operand at dilated coordinate `x`
(already shifted by the low padding): the stored element when `x` lands on a
multiple of the base dilation inside the operand, the initial value in every
gap or padding slot. -/
def dget {α : Type} (xs : List α) (idv : α) (b : Nat) (x : Int) : α :=
  if 0 ≤ x ∧ x.toNat % b = 0 then xs.getD (x.toNat / b) idv else idv

/-- Number of output elements of a windowed reduction over `n` input
elements. -/
def outLen (n : Nat) (g : Geom) : Nat :=
  (Int.fdiv (dilateDim (n : Int) (g.baseDil : Int) + g.padLo + g.padHi
      - dilateDim (g.window : Int) (g.winDil : Int)) (g.stride : Int) + 1).toNat

/-- The window elements feeding output index `j`. -/
def windowElems {α : Type} (xs : List α) (idv : α) (g : Geom) (j : Nat) : List α :=
  (List.range g.window).map fun (k : Nat) =>
    dget xs idv g.baseDil (((j * g.stride + k * g.winDil : Nat) : Int) - g.padLo)

/-- Modelled from the spec: one-dimensional ReduceWindow execution semantics
(§4.3): fold the combiner over each window, starting from the initial value. -/
def reduceWindow1 {α : Type} (f : α → α → α) (init : α) (xs : List α) (g : Geom) : List α :=
  (List.range (outLen xs.length g)).map fun (j : Nat) =>
    (windowElems xs init g j).foldl f init

/-- The pairwise reducer of
`_select_and_gather_add_using_variadic_reducewindow` (lines 759-763): compare
the keys with the select predicate and carry both components of the winner. -/
def sagReducer (sp : SelectPrim) (x y : XInt × XInt) : XInt × XInt :=
  let which := sp.denote x.1 y.1
  (if which then x.1 else y.1, if which then x.2 else y.2)

/-- Embedding of `_select_and_gather_add_using_variadic_reducewindow`
(lines 756-772): reduce over `(operand, tangent)` pairs with the pairwise
reducer, initial pair `(±inf identity, 0)`, and keep the tangent component. -/
def selectAndGatherAdd (tangents operand : List XInt) (sp : SelectPrim) (g : Geom) :
    List XInt :=
  (reduceWindow1 (sagReducer sp) (sp.identity, XInt.fin 0) (operand.zip tangents) g).map
    Prod.snd

/-- The geometry of the pooling example in the spec (§8.4): window 2, stride 2,
no padding, unit dilations. -/
def poolGeom : Geom := ⟨2, 2, 0, 0, 1, 1⟩

/-! ### Monoid fast-path selection (spec §4.2, code lines 46-112) -/

/-- The abstract value of one init value as `_get_monoid_window_reducer`
inspects it: whether it is a concrete (constant-foldable) array, whether its
shape is `()`, and its scalar value. -/
structure InitVal where
  concrete : Bool
  scalarShape : Bool
  val : XInt
deriving DecidableEq

/-- The combining function handed to `reduce_window`, tagged by identity with
the known monoids (the code compares with `is`, i.e. function identity);
`opOther` carries an arbitrary combiner. -/
inductive MonoidOp where
  | opAdd : MonoidOp
  | opMax : MonoidOp
  | opMin : MonoidOp
  | opOther : (XInt → XInt → XInt) → MonoidOp

/-- The scalar function a `MonoidOp` denotes. -/
def MonoidOp.denote : MonoidOp → XInt → XInt → XInt
  | .opAdd => XInt.add
  | .opMax => XInt.maxv
  | .opMin => XInt.minv
  | .opOther f => f

/-- The three specialized windowed-reduction primitives. -/
inductive SpecialPrim where
  | sumP : SpecialPrim
  | maxP : SpecialPrim
  | minP : SpecialPrim
deriving DecidableEq

/-- Embedding of `_get_monoid_window_reducer` (lines 97-112): exactly one init
value, concrete and rank-0, and the combiner/identity pair must match
(`add`/`0`, `max`/max-identity, `min`/min-identity); anything else returns
`none` (the code returns `None` or the falsy `False`, both of which fall
through to the generic primitive at line 78). -/
def getMonoidWindowReducer (op : MonoidOp) (xs : List InitVal) : Option SpecialPrim :=
  match xs with
  | [x] =>
    if x.concrete && x.scalarShape then
      match op with
      | .opAdd => if x.val = XInt.fin 0 then some .sumP else none
      | .opMax => if x.val = XInt.negInf then some .maxP else none
      | .opMin => if x.val = XInt.posInf then some .minP else none
      | .opOther _ => none
    else none
  | _ => none

/-- Modelled from the spec: execution semantics of the three specialized
primitives; their lowering (lines 464-469) reduces with the dtype identity
(`0`, `-inf`, `+inf`) as the initial value. -/
def specialSemantics : SpecialPrim → List XInt → Geom → List XInt
  | .sumP, xs, g => reduceWindow1 XInt.add (XInt.fin 0) xs g
  | .maxP, xs, g => reduceWindow1 XInt.maxv XInt.negInf xs g
  | .minP, xs, g => reduceWindow1 XInt.minv XInt.posInf xs g

/-- Embedding of the dispatch in `reduce_window` (lines 77-95) for a single
operand: take the specialized primitive when the monoid reducer matches,
otherwise bind the generic primitive with the user combiner and init value. -/
def reduceWindowDispatch (op : MonoidOp) (initv : InitVal) (xs : List XInt) (g : Geom) :
    List XInt :=
  match getMonoidWindowReducer op [initv] with
  | some p => specialSemantics p xs g
  | none => reduceWindow1 op.denote initv.val xs g

/-! ### Shape of the windowed-sum transpose rule (spec §4.3, code lines 330-347) -/

/-- Modelled from the spec: `convolution._conv_general_vjp_lhs_padding` (not
under `src/`), the transpose of the forward padding function (§4.3): per
dimension, `pad_before = dilate(window, rhs_dil) - pad_lo - 1` and
`pad_after = dilate(in, lhs_dil) + dilate(window, rhs_dil) - 1
- dilate(out, stride) - pad_before`. -/
def convGeneralVjpLhsPadding (in_shape window_dimensions window_strides out_shape : List Int)
    (padding : List (Int × Int)) (lhs_dilation rhs_dilation : List Int) :
    List (Int × Int) :=
  let lhsD := dilateShape in_shape lhs_dilation
  let rhsD := dilateShape window_dimensions rhs_dilation
  let outD := dilateShape out_shape window_strides
  let padBefore := List.zipWith (fun rh lo => rh - lo - 1) rhsD (padding.map Prod.fst)
  let padAfter := List.zipWith (fun lr opb => lr - 1 - opb)
    (List.zipWith (fun l rh => l + rh) lhsD rhsD)
    (List.zipWith (fun o pb => o + pb) outD padBefore)
  padBefore.zip padAfter

/-- Modelled from the spec: the output extent of `lax.pad` (not under `src/`)
for one dimension with config `(lo, hi, interior)`:
`lo + hi + dilate(n, interior + 1)`. -/
def padShapeDim (n lo hi interior : Int) : Int := lo + hi + dilateDim n (interior + 1)

/-- The shape of the padded cotangent in `_reduce_window_sum_transpose_rule`
(lines 335-341): pad the cotangent shape with the transposed padding and
interior gaps of `stride - 1`. -/
def transposePadCotShape
    (input_shape window_dimensions window_strides : List Int)
    (padding : List (Int × Int)) (base_dilation window_dilation : List Int)
    (cotangent_shape : List Int) : List Int :=
  List.zipWith
    (fun (tp : Int × Int × Int) s => padShapeDim tp.1 tp.2.1 tp.2.2 (s - 1))
    (cotangent_shape.zip (convGeneralVjpLhsPadding input_shape window_dimensions
      window_strides cotangent_shape padding base_dilation window_dilation))
    window_strides

/-- Embedding of the shape pipeline of `_reduce_window_sum_transpose_rule`
(lines 330-347): compute the transposed padding, pad the cotangent with
interior gaps of `stride - 1`, then take the shape of the windowed sum with
strides `base_dilation`, zero padding, unit base dilation and the original
window dilation. -/
def reduceWindowSumTransposeShape
    (input_shape window_dimensions window_strides : List Int)
    (padding : List (Int × Int)) (base_dilation window_dilation : List Int)
    (cotangent_shape : List Int) : List Int :=
  reduce_window_shape_tuple
    (transposePadCotShape input_shape window_dimensions window_strides padding
      base_dilation window_dilation cotangent_shape)
    window_dimensions base_dilation
    (List.replicate input_shape.length ((0 : Int), (0 : Int)))
    (some (List.replicate input_shape.length (1 : Int)))
    (some window_dilation)

/-! ### Wide-word packing (spec §4.5, code lines 652-686) -/

namespace PackedWord

/-- Embedding of `pack` in the wide-word strategy of
`_select_and_gather_add_lowering` (lines 662-671) at the bit-pattern level:
bitcast both `n`-bit scalars to `n`-bit words, widen to `2n` bits, shift the
first into the high half (modulo the `2n`-bit width) and or the second into
the low half. -/
def pack (n a b : Nat) : Nat := ((a <<< n) % 2 ^ (2 * n)) ||| b

/-- Embedding of `fst` (lines 674-679): logical right shift by `n`, truncate
to an `n`-bit word, bitcast back. -/
def fst (n t : Nat) : Nat := (t >>> n) % 2 ^ n

/-- Embedding of `snd` (lines 682-686): truncate to an `n`-bit word, bitcast
back. -/
def snd (n t : Nat) : Nat := t % 2 ^ n

end PackedWord

/-! ### select_and_scatter_add and its two lowering strategies
(spec §4.4, code lines 585-619) -/

/-- Element of `xs` at integer position `x`, or the identity `idv` outside
`xs` (padding slots of the windowed select hold the select identity). -/
def vget {α : Type} (xs : List α) (idv : α) (x : Int) : α :=
  if 0 ≤ x then xs.getD x.toNat idv else idv

/-- The values seen by window `j` of the windowed select (window `w`, stride
`s`, low padding `lo`). -/
def scatterWindowVals (xs : List XInt) (idv : XInt) (lo : Int) (w s j : Nat) :
    List XInt :=
  (List.range w).map fun (k : Nat) => vget xs idv (((j * s + k : Nat) : Int) - lo)

/-- Index within a window of the element the select function keeps: scan left
to right, keeping the current winner whenever `sel winner candidate` holds
(exact ties keep the earlier element; the spec leaves tie-breaking
implementation-defined). -/
def winnerIdx (sel : XInt → XInt → Bool) (vals : List XInt) : Nat :=
  match vals with
  | [] => 0
  | v :: rest =>
    ((List.enumFrom 1 rest).foldl
      (fun best d => if sel best.2 d.2 then best else d) (0, v)).1

/-- The operand coordinate into which window `j` scatters its source value:
the winning window slot shifted back by the low padding (negative or past the
end when the winner is a padding slot; such scatters are dropped). -/
def selCoord (xs : List XInt) (sp : SelectPrim) (lo : Int) (w s j : Nat) : Int :=
  ((j * s + winnerIdx sp.denote (scatterWindowVals xs sp.identity lo w s j) : Nat) :
    Int) - lo

/-- Modelled from the spec: `select_and_scatter_add` semantics (§4.4; the
primitive execution is backend-delegated and not under `src/`): each window
selects one winning position with the select predicate, padding slots holding
the select identity; every operand position receives the sum of the source
values of the windows it won, seeded with zero; scatters landing in a padding
slot are dropped. -/
def selectAndScatterAdd (source : List Int) (operand : List XInt) (sp : SelectPrim)
    (w s : Nat) (lo hi : Int) : List Int :=
  (List.range operand.length).map fun (p : Nat) =>
    ((List.range source.length).filter
      (fun (j : Nat) => decide (selCoord operand sp lo w s j = ((p : Nat) : Int)))).foldl
      (fun (acc : Int) (j : Nat) => acc + source.getD j 0) 0

/-- Embedding of `_select_and_scatter_add_impl` with `expand_padding=True`
(lines 585-607): materialize the padding by extending the operand with the
select identity, run the windowed select with zero padding, then slice the
original region back out. -/
def selectAndScatterAddExpand (source : List Int) (operand : List XInt)
    (sp : SelectPrim) (w s : Nat) (lo hi : Nat) : List Int :=
  ((selectAndScatterAdd source
      (List.replicate lo sp.identity ++ operand ++ List.replicate hi sp.identity)
      sp w s 0 0).drop lo).take operand.length

/-! ### Transpose of select_and_gather_add (spec §4.5, code lines 791-814) -/

/-- Length of a list padded with `d - 1` interior gaps between elements. -/
def padInteriorLen (n d : Nat) : Nat := if n = 0 then 0 else 1 + (n - 1) * d

/-- `lax.pad` with config `(0, 0, d - 1)` (line 807-808): keep every element
at a multiple of `d`, with the identity in the `d - 1` gaps between. -/
def padInterior (xs : List XInt) (idv : XInt) (d : Nat) : List XInt :=
  (List.range (padInteriorLen xs.length d)).map fun (p : Nat) =>
    if p % d = 0 then xs.getD (p / d) idv else idv

/-- `slicing.slice(result, zeros, result.shape, base_dilation)`
(lines 812-813): strided slice from zero with stride `b`. -/
def stridedSlice (xs : List Int) (b : Nat) : List Int :=
  (List.range ((xs.length + b - 1) / b)).map fun (i : Nat) => xs.getD (i * b) 0

/-- Embedding of `_select_and_gather_add_transpose` (lines 791-814): error out
on non-trivial window dilation; a symbolic zero cotangent (`none`) yields a
symbolic zero; otherwise pad the operand with the select identity when the
base dilation is non-trivial, route the cotangent into
`select_and_scatter_add` with the same select predicate, window dimensions,
strides and padding, and undo the base dilation with a strided slice. -/
def selectAndGatherAddTranspose (t : Option (List Int)) (operand : List XInt)
    (sp : SelectPrim) (w s : Nat) (lo hi : Int) (b wd : Nat) :
    Except Unit (Option (List Int)) :=
  if wd ≠ 1 then Except.error () else
  match t with
  | none => Except.ok none
  | some cot =>
    let operand2 := if b ≠ 1 then padInterior operand sp.identity b else operand
    let result := selectAndScatterAdd cot operand2 sp w s lo hi
    Except.ok (some (if b ≠ 1 then stridedSlice result b else result))

/-! ### Batching rules (spec §4.3, code lines 259-284 and 349-365) -/

/-- Two-dimensional element access: row coordinate, then column coordinate
inside the row; every padding or dilation-gap slot holds the initial value. -/
def dget2 {α : Type} (rows : List (List α)) (idv : α) (b0 b1 : Nat)
    (x0 x1 : Int) : α :=
  if 0 ≤ x0 ∧ x0.toNat % b0 = 0 then
    match rows[x0.toNat / b0]? with
    | some row => dget row idv b1 x1
    | none => idv
  else idv

/-- Modelled from the spec: two-dimensional ReduceWindow execution semantics,
the direct product of the one-dimensional semantics per axis. -/
def reduceWindow2 {α : Type} (f : α → α → α) (init : α) (rows : List (List α))
    (g0 g1 : Geom) (n : Nat) : List (List α) :=
  (List.range (outLen rows.length g0)).map fun (i : Nat) =>
    (List.range (outLen n g1)).map fun (j : Nat) =>
      (List.range g0.window).foldl (fun (acc : α) (k0 : Nat) =>
        (List.range g1.window).foldl (fun (acc2 : α) (k1 : Nat) =>
          f acc2 (dget2 rows init g0.baseDil g1.baseDil
            (((i * g0.stride + k0 * g0.winDil : Nat) : Int) - g0.padLo)
            (((j * g1.stride + k1 * g1.winDil : Nat) : Int) - g1.padLo))) acc) init

/-- The degenerate window entry prepended for the batch axis (lines 274-278,
356-361): window 1, stride 1, padding `(0, 0)`, both dilations 1. -/
def batchGeom : Geom := ⟨1, 1, 0, 0, 1, 1⟩

/-- Embedding of `_generic_reduce_window_batch_rule` (lines 259-284) for one
operand/init pair, the batch axis moved to the front: a batch axis on the
init value is a hard error; otherwise prepend the degenerate entry and
recurse with the generic primitive. -/
def genericReduceWindowBatchRule {α : Type} (f : α → α → α) (init : α)
    (initBdim : Option Nat) (rows : List (List α)) (g : Geom) (n : Nat) :
    Except Unit (List (List α)) :=
  if initBdim.isSome then Except.error ()
  else Except.ok (reduceWindow2 f init rows batchGeom g n)

/-- Embedding of `_reduce_window_batch_rule` (lines 349-365) for the monoid
primitives at batch dimension 0: insert the degenerate entry at the batch
axis and recurse with the unbatched reducer. -/
def reduceWindowBatchRule {α : Type} (f : α → α → α) (init : α)
    (rows : List (List α)) (g : Geom) (n : Nat) : List (List α) :=
  reduceWindow2 f init rows batchGeom g n

end WindowedReductions

namespace WindowedReductions

/-! ### Claims -/

/-- Claim C1: for operand shape, window dimensions, strides, padding and
dilations of equal rank, `reduce_window_shape_tuple` returns, per dimension,
`floor((dilate(extent, base) + lo + hi - dilate(window, windowDil)) / stride) + 1`
with `dilate(n, d) = 1 + (n-1)*d` for `n > 0` and `0` otherwise. -/
theorem reduce_window_shape_tuple_per_dim
    (sh wd ws bd wdl : List Int) (pad : List (Int × Int)) (r i : Nat)
    (hsh : sh.length = r) (hwd : wd.length = r) (hws : ws.length = r)
    (hpad : pad.length = r) (hbd : bd.length = r) (hwdl : wdl.length = r)
    (hi : i < r) :
    (reduce_window_shape_tuple sh wd ws pad (some bd) (some wdl)).getD i 0 =
      Int.fdiv (dilateDim (sh.getD i 0) (bd.getD i 0)
          + (pad.getD i (0, 0)).1 + (pad.getD i (0, 0)).2
          - dilateDim (wd.getD i 0) (wdl.getD i 0)) (ws.getD i 0) + 1 := by
  have hs : i < sh.length := by omega
  have hw : i < wd.length := by omega
  have hst : i < ws.length := by omega
  have hp : i < pad.length := by omega
  have hb : i < bd.length := by omega
  have hwl : i < wdl.length := by omega
  simp only [reduce_window_shape_tuple, strideShape, sumShapes, dilateShape]
  rw [List.getD_eq_getElem?_getD, List.getD_eq_getElem?_getD,
    List.getD_eq_getElem?_getD, List.getD_eq_getElem?_getD,
    List.getD_eq_getElem?_getD, List.getD_eq_getElem?_getD,
    List.getD_eq_getElem?_getD]
  rw [List.getElem?_eq_getElem (by simp; omega)]
  rw [List.getElem?_eq_getElem hs, List.getElem?_eq_getElem hw,
    List.getElem?_eq_getElem hst, List.getElem?_eq_getElem hp,
    List.getElem?_eq_getElem hb, List.getElem?_eq_getElem hwl]
  simp [List.getElem_zipWith]

/-- Witness for C1 at a concrete geometry. -/
theorem reduce_window_shape_tuple_per_dim_witness :
    (reduce_window_shape_tuple [4] [2] [2] [(0, 0)] (some [1]) (some [1])).getD 0 0 =
      Int.fdiv (dilateDim (([4] : List Int).getD 0 0) (([1] : List Int).getD 0 0)
          + (([((0 : Int), (0 : Int))]).getD 0 (0, 0)).1
          + (([((0 : Int), (0 : Int))]).getD 0 (0, 0)).2
          - dilateDim (([2] : List Int).getD 0 0) (([1] : List Int).getD 0 0))
        (([2] : List Int).getD 0 0) + 1 :=
  reduce_window_shape_tuple_per_dim [4] [2] [2] [1] [1] [(0, 0)] 1 0
    rfl rfl rfl rfl rfl rfl (by decide)

/-- Claim C2: for operand `[1,5,2,4]` with window 2, stride 2, no padding and
unit dilations, max-pooling returns `[5,4]`; `select_and_gather_add` with
tangents `[10,20,30,40]` routes `[20,40]` under the `≥` predicate and
`[10,30]` under the `≤` predicate. -/
theorem pooling_example :
    reduceWindow1 XInt.maxv XInt.negInf
        [XInt.fin 1, XInt.fin 5, XInt.fin 2, XInt.fin 4] poolGeom =
      [XInt.fin 5, XInt.fin 4] ∧
    selectAndGatherAdd [XInt.fin 10, XInt.fin 20, XInt.fin 30, XInt.fin 40]
        [XInt.fin 1, XInt.fin 5, XInt.fin 2, XInt.fin 4] SelectPrim.geP poolGeom =
      [XInt.fin 20, XInt.fin 40] ∧
    selectAndGatherAdd [XInt.fin 10, XInt.fin 20, XInt.fin 30, XInt.fin 40]
        [XInt.fin 1, XInt.fin 5, XInt.fin 2, XInt.fin 4] SelectPrim.leP poolGeom =
      [XInt.fin 10, XInt.fin 30] := by
  refine ⟨?_, ?_, ?_⟩ <;> rfl

/-- Claim C3: whenever the fast path is taken (the monoid reducer matches),
the specialized primitive computes exactly what the generic primitive would
compute with the user's combiner and init value. -/
theorem monoid_fast_path_equiv (op : MonoidOp) (initv : InitVal) (xs : List XInt)
    (g : Geom) (p : SpecialPrim) (h : getMonoidWindowReducer op [initv] = some p) :
    reduceWindowDispatch op initv xs g = reduceWindow1 op.denote initv.val xs g := by
  unfold reduceWindowDispatch
  rw [h]
  unfold getMonoidWindowReducer at h
  cases op with
  | opAdd =>
    simp only at h
    split at h
    · split at h
      · rename_i hval
        cases h
        simp [specialSemantics, MonoidOp.denote, hval]
      · exact absurd h (by simp)
    · exact absurd h (by simp)
  | opMax =>
    simp only at h
    split at h
    · split at h
      · rename_i hval
        cases h
        simp [specialSemantics, MonoidOp.denote, hval]
      · exact absurd h (by simp)
    · exact absurd h (by simp)
  | opMin =>
    simp only at h
    split at h
    · split at h
      · rename_i hval
        cases h
        simp [specialSemantics, MonoidOp.denote, hval]
      · exact absurd h (by simp)
    · exact absurd h (by simp)
  | opOther f =>
    simp only at h
    split at h <;> exact absurd h (by simp)

/-- Witness for C3: additive fast path on a concrete input. -/
theorem monoid_fast_path_equiv_witness :
    getMonoidWindowReducer MonoidOp.opAdd [⟨true, true, XInt.fin 0⟩] =
      some SpecialPrim.sumP ∧
    reduceWindowDispatch MonoidOp.opAdd ⟨true, true, XInt.fin 0⟩
        [XInt.fin 1, XInt.fin 2, XInt.fin 3, XInt.fin 4] poolGeom =
      reduceWindow1 (MonoidOp.denote MonoidOp.opAdd) (XInt.fin 0)
        [XInt.fin 1, XInt.fin 2, XInt.fin 3, XInt.fin 4] poolGeom :=
  ⟨rfl, monoid_fast_path_equiv MonoidOp.opAdd ⟨true, true, XInt.fin 0⟩
    [XInt.fin 1, XInt.fin 2, XInt.fin 3, XInt.fin 4] poolGeom SpecialPrim.sumP rfl⟩

/-- Claim C5: the dispatcher selects a specialized primitive if-and-only-if
there is exactly one init value, it is concrete and rank-0, and the
combiner/init pair is `add`/`0`, `max`/max-identity or `min`/min-identity;
every other combination falls through (returns `none`). -/
theorem monoid_fast_path_dispatch_iff (op : MonoidOp) (xs : List InitVal)
    (p : SpecialPrim) :
    getMonoidWindowReducer op xs = some p ↔
      ∃ x, xs = [x] ∧ x.concrete = true ∧ x.scalarShape = true ∧
        ((op = MonoidOp.opAdd ∧ x.val = XInt.fin 0 ∧ p = SpecialPrim.sumP) ∨
         (op = MonoidOp.opMax ∧ x.val = XInt.negInf ∧ p = SpecialPrim.maxP) ∨
         (op = MonoidOp.opMin ∧ x.val = XInt.posInf ∧ p = SpecialPrim.minP)) := by
  cases xs with
  | nil =>
    simp [show getMonoidWindowReducer op [] = none from rfl]
  | cons x rest =>
    cases rest with
    | cons y t =>
      simp [show getMonoidWindowReducer op (x :: y :: t) = none from rfl]
    | nil =>
      have key : ∀ (o : MonoidOp) (y : InitVal),
          getMonoidWindowReducer o [y] =
            if y.concrete && y.scalarShape then
              match o with
              | .opAdd => if y.val = XInt.fin 0 then some .sumP else none
              | .opMax => if y.val = XInt.negInf then some .maxP else none
              | .opMin => if y.val = XInt.posInf then some .minP else none
              | .opOther _ => none
            else none := fun _ _ => rfl
      obtain ⟨c, s, v⟩ := x
      cases c <;> cases s <;> cases op <;> cases p <;> simp [key]

/-- Or of a value shifted into the high bits with a low-bits value is their
sum. -/
theorem lor_high_low (n a b : Nat) (hb : b < 2 ^ n) :
    (2 ^ n * a) ||| b = 2 ^ n * a + b := by
  apply Nat.eq_of_testBit_eq
  intro i
  rw [Nat.testBit_or, Nat.testBit_mul_pow_two_add a hb i, Nat.testBit_mul_pow_two]
  by_cases h : i < n
  · have hni : ¬ i ≥ n := by omega
    simp [h, hni]
  · have hn : i ≥ n := by omega
    have hbf : b.testBit i = false :=
      Nat.testBit_lt_two_pow
        (lt_of_lt_of_le hb (Nat.pow_le_pow_right (by norm_num) hn))
    simp [h, hn, hbf]

/-- Claim C4: in the wide-word strategy, for every pair of `n`-bit patterns
(hence every scalar of the dtype, the signed zeros and the infinite identity
sentinels included), unpacking the packed double-width word reproduces both
components bit-exactly. -/
theorem pack_unpack (n a b : Nat) (ha : a < 2 ^ n) (hb : b < 2 ^ n) :
    PackedWord.fst n (PackedWord.pack n a b) = a ∧
    PackedWord.snd n (PackedWord.pack n a b) = b := by
  have h2 : (0 : Nat) < 2 ^ n := Nat.two_pow_pos n
  have hsh : a <<< n = 2 ^ n * a := by rw [Nat.shiftLeft_eq, Nat.mul_comm]
  have hlt : 2 ^ n * a < 2 ^ (2 * n) := by
    have h22 : 2 ^ (2 * n) = 2 ^ n * 2 ^ n := by rw [two_mul, pow_add]
    rw [h22]
    exact mul_lt_mul_of_pos_left ha h2
  unfold PackedWord.pack PackedWord.fst PackedWord.snd
  rw [hsh, Nat.mod_eq_of_lt hlt, lor_high_low n a b hb]
  constructor
  · rw [Nat.shiftRight_eq_div_pow, Nat.mul_add_div h2,
      Nat.div_eq_of_lt hb, Nat.add_zero, Nat.mod_eq_of_lt ha]
  · rw [Nat.mul_add_mod, Nat.mod_eq_of_lt hb]

/-- Witness for C4 on 8-bit patterns. -/
theorem pack_unpack_witness :
    (240 < 2 ^ 8 ∧ 15 < 2 ^ 8) ∧
    (PackedWord.fst 8 (PackedWord.pack 8 240 15) = 240 ∧
     PackedWord.snd 8 (PackedWord.pack 8 240 15) = 15) :=
  ⟨by decide, pack_unpack 8 240 15 (by decide) (by decide)⟩

/-- Python floor division of `-1` by a positive divisor is `-1`. -/
theorem neg_one_fdiv (b : Int) (hb : 1 ≤ b) : Int.fdiv (-1) b = -1 := by
  rw [Int.fdiv_eq_ediv _ (by omega)]
  have h : (b - 1 + b * (-1)) / b = 0 + (-1) := by
    rw [Int.add_mul_ediv_left _ _ (by omega : b ≠ 0),
      Int.ediv_eq_zero_of_lt (by omega) (by omega)]
  have h2 : b - 1 + b * (-1) = -1 := by ring
  rw [h2] at h
  rw [h]
  omega

/-- Per-dimension arithmetic of the windowed-sum transpose shape: padding the
cotangent extent with the transposed padding and interior gaps `stride - 1`,
then striding by the base dilation, recovers the input extent. -/
theorem sum_transpose_dim (n w s b wdl lo hi : Int)
    (hn : 0 ≤ n) (hs : 1 ≤ s) (hb : 1 ≤ b) (hw : 1 ≤ w) (hwdl : 1 ≤ wdl)
    (hv : 0 ≤ dilateDim n b + lo + hi - dilateDim w wdl) :
    Int.fdiv (dilateDim (padShapeDim
        (Int.fdiv (dilateDim n b + lo + hi - dilateDim w wdl) s + 1)
        (dilateDim w wdl - lo - 1)
        (dilateDim n b + dilateDim w wdl - 1
          - (dilateDim (Int.fdiv (dilateDim n b + lo + hi - dilateDim w wdl) s + 1) s
             + (dilateDim w wdl - lo - 1)))
        (s - 1)) 1
      - dilateDim w wdl) b + 1 = n := by
  set D := dilateDim n b with hD
  set W := dilateDim w wdl with hW
  set t := Int.fdiv (D + lo + hi - W) s + 1 with ht
  have hW1 : 1 ≤ W := by
    rw [hW]
    unfold dilateDim
    split
    · omega
    · nlinarith
  have ht1 : 1 ≤ t := by
    have := Int.fdiv_nonneg hv (by omega : (0:Int) ≤ s)
    omega
  have hts : dilateDim t s = 1 + (t - 1) * s := by
    unfold dilateDim
    split
    · omega
    · rfl
  have hpad : padShapeDim t (W - lo - 1) (D + W - 1 - (dilateDim t s + (W - lo - 1)))
      (s - 1) = D + W - 1 := by
    unfold padShapeDim
    have hsub : s - 1 + 1 = s := by ring
    rw [hsub, hts]
    ring
  rw [hpad]
  have hDnn : 0 ≤ D := by
    rw [hD]
    unfold dilateDim
    split
    · omega
    · nlinarith
  have hdil : dilateDim (D + W - 1) 1 = D + W - 1 := by
    unfold dilateDim
    split
    · omega
    · ring
  rw [hdil]
  have hsimp : D + W - 1 - W = D - 1 := by ring
  rw [hsimp]
  rcases eq_or_lt_of_le hn with hz | hpos
  · have hD0 : D = 0 := by
      rw [hD, ← hz]
      unfold dilateDim
      simp
    rw [hD0]
    norm_num
    rw [neg_one_fdiv b hb]
    omega
  · have hDval : D = 1 + (n - 1) * b := by
      rw [hD]
      unfold dilateDim
      split
      · omega
      · rfl
    rw [hDval]
    have harg : 1 + (n - 1) * b - 1 = (n - 1) * b := by ring
    rw [harg, Int.mul_fdiv_cancel _ (by omega : b ≠ 0)]
    ring

/-- `getD` at an in-range index is `getElem`. -/
theorem getD_of_lt {α : Type} (l : List α) (d : α) (i : Nat) (h : i < l.length) :
    l.getD i d = l[i] := by
  simp [List.getD_eq_getElem?_getD, List.getElem?_eq_getElem h]

/-- Per-dimension reading of `convGeneralVjpLhsPadding`. -/
theorem convGeneralVjpLhsPadding_getD
    (inp wd ws bd wdl cot : List Int) (pad : List (Int × Int)) (r i : Nat)
    (h1 : inp.length = r) (h2 : wd.length = r) (h3 : ws.length = r)
    (h4 : pad.length = r) (h5 : bd.length = r) (h6 : wdl.length = r)
    (h7 : cot.length = r) (hi : i < r) :
    (convGeneralVjpLhsPadding inp wd ws cot pad bd wdl).getD i (0, 0) =
      (dilateDim (wd.getD i 0) (wdl.getD i 0) - (pad.getD i (0, 0)).1 - 1,
       dilateDim (inp.getD i 0) (bd.getD i 0)
         + dilateDim (wd.getD i 0) (wdl.getD i 0) - 1
         - (dilateDim (cot.getD i 0) (ws.getD i 0)
            + (dilateDim (wd.getD i 0) (wdl.getD i 0) - (pad.getD i (0, 0)).1 - 1))) := by
  have hinp : i < inp.length := by omega
  have hwd : i < wd.length := by omega
  have hws : i < ws.length := by omega
  have hp : i < pad.length := by omega
  have hbd : i < bd.length := by omega
  have hwdl : i < wdl.length := by omega
  have hcot : i < cot.length := by omega
  have hlen : i < (convGeneralVjpLhsPadding inp wd ws cot pad bd wdl).length := by
    simp only [convGeneralVjpLhsPadding, dilateShape, List.length_zip,
      List.length_zipWith, List.length_map]
    omega
  rw [getD_of_lt _ _ i hlen, getD_of_lt _ _ i hwd, getD_of_lt _ _ i hwdl,
    getD_of_lt _ _ i hp, getD_of_lt _ _ i hinp, getD_of_lt _ _ i hbd,
    getD_of_lt _ _ i hcot, getD_of_lt _ _ i hws]
  simp only [convGeneralVjpLhsPadding, dilateShape, List.getElem_zip,
    List.getElem_zipWith, List.getElem_map]

/-- Per-dimension reading of `transposePadCotShape`. -/
theorem transposePadCotShape_getD
    (inp wd ws bd wdl cot : List Int) (pad : List (Int × Int)) (r i : Nat)
    (h1 : inp.length = r) (h2 : wd.length = r) (h3 : ws.length = r)
    (h4 : pad.length = r) (h5 : bd.length = r) (h6 : wdl.length = r)
    (h7 : cot.length = r) (hi : i < r) :
    (transposePadCotShape inp wd ws pad bd wdl cot).getD i 0 =
      padShapeDim (cot.getD i 0)
        (dilateDim (wd.getD i 0) (wdl.getD i 0) - (pad.getD i (0, 0)).1 - 1)
        (dilateDim (inp.getD i 0) (bd.getD i 0)
          + dilateDim (wd.getD i 0) (wdl.getD i 0) - 1
          - (dilateDim (cot.getD i 0) (ws.getD i 0)
             + (dilateDim (wd.getD i 0) (wdl.getD i 0) - (pad.getD i (0, 0)).1 - 1)))
        (ws.getD i 0 - 1) := by
  have hws : i < ws.length := by omega
  have hcot : i < cot.length := by omega
  have hpads : i < (convGeneralVjpLhsPadding inp wd ws cot pad bd wdl).length := by
    simp only [convGeneralVjpLhsPadding, dilateShape, List.length_zip,
      List.length_zipWith, List.length_map]
    omega
  have hlen : i < (transposePadCotShape inp wd ws pad bd wdl cot).length := by
    simp only [transposePadCotShape, convGeneralVjpLhsPadding, dilateShape,
      List.length_zip, List.length_zipWith, List.length_map]
    omega
  rw [getD_of_lt _ _ i hlen]
  simp only [transposePadCotShape, List.getElem_zipWith, List.getElem_zip]
  rw [← getD_of_lt _ ((0 : Int), (0 : Int)) i hpads,
    ← getD_of_lt _ (0 : Int) i hcot, ← getD_of_lt _ (0 : Int) i hws]
  rw [convGeneralVjpLhsPadding_getD inp wd ws bd wdl cot pad r i
    h1 h2 h3 h4 h5 h6 h7 hi]

/-- `getD` of `List.replicate` at an in-range index. -/
theorem getD_replicate_of_lt {α : Type} (n : Nat) (v d : α) (i : Nat) (h : i < n) :
    (List.replicate n v).getD i d = v := by
  rw [getD_of_lt _ _ i (by simp [h]), List.getElem_replicate]

set_option maxHeartbeats 1000000 in
/-- Claim C6: for every windowed-sum invocation with valid geometry and a
cotangent of the forward output shape, the transpose rule (pad the cotangent
via the transposed padding with interior gaps `stride - 1`, then re-apply the
windowed sum with the base dilation as strides and swapped dilation roles)
produces a cotangent whose shape equals the original operand shape exactly. -/
theorem sum_transpose_shape
    (inp wd ws bd wdl : List Int) (pad : List (Int × Int)) (r : Nat)
    (h1 : inp.length = r) (h2 : wd.length = r) (h3 : ws.length = r)
    (h4 : pad.length = r) (h5 : bd.length = r) (h6 : wdl.length = r)
    (hgeom : ∀ i, i < r →
      0 ≤ inp.getD i 0 ∧ 1 ≤ ws.getD i 0 ∧ 1 ≤ bd.getD i 0 ∧ 1 ≤ wd.getD i 0 ∧
      1 ≤ wdl.getD i 0 ∧
      0 ≤ dilateDim (inp.getD i 0) (bd.getD i 0) + (pad.getD i (0, 0)).1
          + (pad.getD i (0, 0)).2 - dilateDim (wd.getD i 0) (wdl.getD i 0)) :
    reduceWindowSumTransposeShape inp wd ws pad bd wdl
      (reduce_window_shape_tuple inp wd ws pad (some bd) (some wdl)) = inp := by
  have hcotlen : (reduce_window_shape_tuple inp wd ws pad (some bd) (some wdl)).length
      = r := by
    simp only [reduce_window_shape_tuple, strideShape, sumShapes, dilateShape,
      List.length_zipWith, List.length_map]
    omega
  have hpclen : (transposePadCotShape inp wd ws pad bd wdl
      (reduce_window_shape_tuple inp wd ws pad (some bd) (some wdl))).length = r := by
    simp only [transposePadCotShape, convGeneralVjpLhsPadding, dilateShape,
      reduce_window_shape_tuple, strideShape, sumShapes,
      List.length_zip, List.length_zipWith, List.length_map]
    omega
  have hreslen : (reduceWindowSumTransposeShape inp wd ws pad bd wdl
      (reduce_window_shape_tuple inp wd ws pad (some bd) (some wdl))).length = r := by
    simp only [reduceWindowSumTransposeShape, transposePadCotShape,
      convGeneralVjpLhsPadding, reduce_window_shape_tuple,
      strideShape, sumShapes, dilateShape, List.length_zipWith, List.length_map,
      List.length_zip, List.length_replicate]
    omega
  apply List.ext_getElem (by omega)
  intro i hi1 hi2
  have hir : i < r := by omega
  rw [← getD_of_lt _ 0 i hi1, ← getD_of_lt _ 0 i hi2]
  show (reduce_window_shape_tuple
      (transposePadCotShape inp wd ws pad bd wdl
        (reduce_window_shape_tuple inp wd ws pad (some bd) (some wdl)))
      wd bd (List.replicate inp.length ((0 : Int), (0 : Int)))
      (some (List.replicate inp.length (1 : Int)))
      (some wdl)).getD i 0 = inp.getD i 0
  rw [reduce_window_shape_tuple_per_dim _ wd bd
    (List.replicate inp.length (1 : Int)) wdl
    (List.replicate inp.length ((0 : Int), (0 : Int))) r i
    hpclen h2 h5 (by simp [h1]) (by simp [h1]) h6 hir]
  rw [getD_replicate_of_lt inp.length (1 : Int) 0 i (by omega),
    getD_replicate_of_lt inp.length ((0 : Int), (0 : Int)) (0, 0) i (by omega)]
  rw [transposePadCotShape_getD inp wd ws bd wdl _ pad r i
    h1 h2 h3 h4 h5 h6 hcotlen hir]
  rw [reduce_window_shape_tuple_per_dim inp wd ws bd wdl pad r i
    h1 h2 h3 h4 h5 h6 hir]
  obtain ⟨ha, hb, hc, hd, he, hf⟩ := hgeom i hir
  have hmain := sum_transpose_dim (inp.getD i 0) (wd.getD i 0) (ws.getD i 0)
    (bd.getD i 0) (wdl.getD i 0) (pad.getD i (0, 0)).1 (pad.getD i (0, 0)).2
    ha hb hc hd he hf
  simpa using hmain

/-- Padding a list on both sides with the identity shifts `vget` by the low
padding. -/
theorem vget_padded {α : Type} (xs : List α) (idv : α) (lo hi : Nat) (x : Int) :
    vget (List.replicate lo idv ++ xs ++ List.replicate hi idv) idv x =
      vget xs idv (x - lo) := by
  unfold vget
  by_cases h0 : 0 ≤ x
  · by_cases h1 : (lo : Int) ≤ x
    · rw [if_pos h0, if_pos (by omega)]
      rw [List.getD_eq_getElem?_getD, List.getD_eq_getElem?_getD,
        List.append_assoc]
      rw [List.getElem?_append_right (by simp only [List.length_replicate]; omega)]
      simp only [List.length_replicate]
      have he : x.toNat - lo = (x - lo).toNat := by omega
      rw [he]
      by_cases h2 : (x - lo).toNat < xs.length
      · rw [List.getElem?_append_left h2]
      · rw [List.getElem?_append_right (by omega)]
        rw [List.getElem?_replicate]
        rw [List.getElem?_eq_none (by omega)]
        split <;> rfl
    · rw [if_pos h0, if_neg (by omega)]
      rw [List.getD_eq_getElem?_getD, List.append_assoc]
      rw [List.getElem?_append_left (by simp only [List.length_replicate]; omega)]
      rw [List.getElem?_replicate_of_lt (by omega)]
      rfl
  · rw [if_neg h0, if_neg (by omega)]

/-- The values seen by a window of the padded operand with zero padding are
the values seen through the original padding. -/
theorem scatterWindowVals_padded (xs : List XInt) (idv : XInt) (lo hi : Nat)
    (w s j : Nat) :
    scatterWindowVals (List.replicate lo idv ++ xs ++ List.replicate hi idv)
        idv 0 w s j =
      scatterWindowVals xs idv lo w s j := by
  unfold scatterWindowVals
  apply List.map_congr_left
  intro k hk
  rw [vget_padded]
  simp

/-- The scatter coordinate on the identity-padded operand is the original
scatter coordinate shifted by the low padding. -/
theorem selCoord_padded (xs : List XInt) (sp : SelectPrim) (lo hi : Nat)
    (w s j : Nat) :
    selCoord (List.replicate lo sp.identity ++ xs ++ List.replicate hi sp.identity)
        sp 0 w s j =
      selCoord xs sp lo w s j + lo := by
  unfold selCoord
  rw [scatterWindowVals_padded]
  omega

/-- Claim C7: on every source, operand, select predicate and window geometry
on which both are defined (non-negative padding), the two
`select_and_scatter_add` lowering strategies, direct padding and
expand-then-slice, produce identical results. -/
theorem scatter_add_padding_equiv (source : List Int) (operand : List XInt)
    (sp : SelectPrim) (w s lo hi : Nat) :
    selectAndScatterAddExpand source operand sp w s lo hi =
      selectAndScatterAdd source operand sp w s (lo : Int) (hi : Int) := by
  unfold selectAndScatterAddExpand
  have hlen1 : ∀ (src : List Int) (xs : List XInt) (spx : SelectPrim)
      (a b : Nat) (l h : Int),
      (selectAndScatterAdd src xs spx a b l h).length = xs.length := by
    intro src xs spx a b l h
    simp only [selectAndScatterAdd, List.length_map, List.length_range]
  apply List.ext_getElem
  · simp only [List.length_take, List.length_drop, hlen1, List.length_append,
      List.length_replicate]
    omega
  · intro i hi1 hi2
    have hin : i < operand.length := by
      rw [hlen1] at hi2
      exact hi2
    rw [List.getElem_take, List.getElem_drop]
    simp only [selectAndScatterAdd, List.getElem_map, List.getElem_range]
    congr 1
    apply List.filter_congr
    intro j hj
    rw [selCoord_padded operand sp lo hi w s j]
    simp only [decide_eq_decide]
    push_cast
    omega

/-- Witness for C6 at a concrete geometry. -/
theorem sum_transpose_shape_witness :
    reduceWindowSumTransposeShape [4] [2] [2] [(0, 0)] [1] [1]
      (reduce_window_shape_tuple [4] [2] [2] [(0, 0)] (some [1]) (some [1])) = [4] :=
  sum_transpose_shape [4] [2] [2] [1] [1] [(0, 0)] 1 rfl rfl rfl rfl rfl rfl
    (by decide)

/-- The length of a `select_and_scatter_add` result equals the operand
length. -/
theorem selectAndScatterAdd_length (source : List Int) (operand : List XInt)
    (sp : SelectPrim) (w s : Nat) (lo hi : Int) :
    (selectAndScatterAdd source operand sp w s lo hi).length = operand.length := by
  simp only [selectAndScatterAdd, List.length_map, List.length_range]

/-- Length of an interior-padded list. -/
theorem padInterior_length (xs : List XInt) (idv : XInt) (d : Nat) :
    (padInterior xs idv d).length = padInteriorLen xs.length d := by
  simp only [padInterior, List.length_map, List.length_range]

/-- Length of a strided slice. -/
theorem stridedSlice_length (xs : List Int) (b : Nat) :
    (stridedSlice xs b).length = (xs.length + b - 1) / b := by
  simp only [stridedSlice, List.length_map, List.length_range]

/-- Strided slicing with the same stride undoes interior padding, at the
level of lengths. -/
theorem padInteriorLen_ceil (n b : Nat) (hb : 1 ≤ b) :
    (padInteriorLen n b + b - 1) / b = n := by
  unfold padInteriorLen
  by_cases hn : n = 0
  · subst hn
    rw [if_pos rfl]
    exact Nat.div_eq_of_lt (by omega)
  · rw [if_neg hn]
    obtain ⟨m, rfl⟩ : ∃ m, n = m + 1 := ⟨n - 1, by omega⟩
    have h1 : 1 + (m + 1 - 1) * b + b - 1 = (m + 1) * b := by
      have e1 : (m + 1 - 1) * b = m * b := by norm_num
      have e2 : 1 + m * b + b = m * b + b + 1 := by ring
      rw [e1, e2, Nat.add_sub_cancel, Nat.succ_mul]
    rw [h1, Nat.mul_div_cancel (m + 1) (show 0 < b by omega)]

/-- Claim C8: the transpose of `select_and_gather_add` raises the
not-implemented error whenever the window dilation differs from 1 (the
dilation check precedes the zero-cotangent check, so this holds for any
cotangent); with trivial window dilation and a non-zero cotangent it routes
the cotangent into `select_and_scatter_add` with the same select predicate,
window dimensions, strides and padding (followed by the base-dilation slice
when base dilation is non-trivial). -/
theorem gather_add_transpose_routing (t : Option (List Int)) (operand : List XInt)
    (sp : SelectPrim) (w s : Nat) (lo hi : Int) (b wd : Nat) (cot : List Int) :
    (wd ≠ 1 → selectAndGatherAddTranspose t operand sp w s lo hi b wd =
      Except.error ()) ∧
    (∃ operand2, selectAndGatherAddTranspose (some cot) operand sp w s lo hi b 1 =
      Except.ok (some (if b ≠ 1
        then stridedSlice (selectAndScatterAdd cot operand2 sp w s lo hi) b
        else selectAndScatterAdd cot operand2 sp w s lo hi))) := by
  constructor
  · intro hwd
    unfold selectAndGatherAddTranspose
    rw [if_pos hwd]
  · refine ⟨if b ≠ 1 then padInterior operand sp.identity b else operand, ?_⟩
    by_cases hb : b = 1
    · simp [selectAndGatherAddTranspose, hb]
    · simp [selectAndGatherAddTranspose, hb]

/-- Witness for C8: non-trivial window dilation errors out. -/
theorem gather_add_transpose_routing_witness :
    selectAndGatherAddTranspose (some [5]) [XInt.fin 1] SelectPrim.geP 1 1 0 0 1 2 =
      Except.error () :=
  (gather_add_transpose_routing (some [5]) [XInt.fin 1] SelectPrim.geP 1 1 0 0 1 2
    [5]).1 (by decide)

/-- Claim C10: with trivial window dilation, the transpose supports
non-trivial base dilation: a symbolic zero cotangent short-circuits to a
symbolic zero without building anything; otherwise the operand is padded with
the select identity with interior gaps `base_dilation - 1`,
`select_and_scatter_add` runs with the original window dimensions, strides
and padding, and a strided slice with stride `base_dilation` yields a
cotangent whose length equals the tangents length (the shape rule forces the
tangents and operand shapes to coincide). -/
theorem gather_add_transpose_base_dilation (operand : List XInt) (sp : SelectPrim)
    (w s : Nat) (lo hi : Int) (b : Nat) (cot : List Int) (hb : 1 ≤ b) :
    selectAndGatherAddTranspose none operand sp w s lo hi b 1 = Except.ok none ∧
    ∃ res, selectAndGatherAddTranspose (some cot) operand sp w s lo hi b 1 =
        Except.ok (some res) ∧
      res = (if b = 1 then selectAndScatterAdd cot operand sp w s lo hi
        else stridedSlice
          (selectAndScatterAdd cot (padInterior operand sp.identity b) sp w s lo hi)
          b) ∧
      res.length = operand.length := by
  constructor
  · simp [selectAndGatherAddTranspose]
  · refine ⟨if b = 1 then selectAndScatterAdd cot operand sp w s lo hi
      else stridedSlice
        (selectAndScatterAdd cot (padInterior operand sp.identity b) sp w s lo hi)
        b, ?_, rfl, ?_⟩
    · by_cases hb1 : b = 1
      · simp [selectAndGatherAddTranspose, hb1]
      · simp [selectAndGatherAddTranspose, hb1]
    · by_cases hb1 : b = 1
      · rw [if_pos hb1, selectAndScatterAdd_length]
      · rw [if_neg hb1, stridedSlice_length, selectAndScatterAdd_length,
          padInterior_length, padInteriorLen_ceil _ _ hb]

/-- Witness for C10 at base dilation 2. -/
theorem gather_add_transpose_base_dilation_witness :
    (1 ≤ 2) ∧
    (selectAndGatherAddTranspose none [XInt.fin 1, XInt.fin 2] SelectPrim.geP
        1 1 0 0 2 1 = Except.ok none ∧
     ∃ res, selectAndGatherAddTranspose (some [3]) [XInt.fin 1, XInt.fin 2]
          SelectPrim.geP 1 1 0 0 2 1 = Except.ok (some res) ∧
        res = (if 2 = 1
          then selectAndScatterAdd [3] [XInt.fin 1, XInt.fin 2] SelectPrim.geP 1 1 0 0
          else stridedSlice
            (selectAndScatterAdd [3]
              (padInterior [XInt.fin 1, XInt.fin 2] SelectPrim.geP.identity 2)
              SelectPrim.geP 1 1 0 0) 2) ∧
        res.length = [XInt.fin 1, XInt.fin 2].length) :=
  ⟨by decide, gather_add_transpose_base_dilation [XInt.fin 1, XInt.fin 2]
    SelectPrim.geP 1 1 0 0 2 [3] (by decide)⟩

/-- The degenerate batch entry leaves the batch-axis extent unchanged. -/
theorem outLen_batchGeom (m : Nat) : outLen m batchGeom = m := by
  unfold outLen batchGeom dilateDim
  norm_num
  split_ifs with h <;> omega

/-- Reducing with the degenerate entry prepended on the batch axis is the
same as mapping the one-dimensional reduction over the rows. -/
theorem reduceWindow2_batch {α : Type} (f : α → α → α) (init : α)
    (rows : List (List α)) (g : Geom) (n : Nat)
    (hrows : ∀ r ∈ rows, r.length = n) :
    reduceWindow2 f init rows batchGeom g n =
      rows.map (fun r => reduceWindow1 f init r g) := by
  unfold reduceWindow2
  rw [outLen_batchGeom]
  apply List.ext_getElem (by simp)
  intro i hi1 hi2
  have hilt : i < rows.length := by simpa using hi2
  simp only [List.getElem_map, List.getElem_range]
  unfold reduceWindow1
  have hrl : (rows[i]).length = n := hrows _ (List.getElem_mem hilt)
  rw [hrl]
  apply List.ext_getElem (by simp)
  intro j hj1 hj2
  simp only [List.getElem_map, List.getElem_range]
  have hw1 : batchGeom.window = 1 := rfl
  rw [hw1, (by decide : List.range 1 = [0]), List.foldl_cons, List.foldl_nil]
  unfold windowElems
  rw [List.foldl_map]
  congr 1
  funext acc k
  congr 1
  unfold dget2
  have h0 : ((i * batchGeom.stride + 0 * batchGeom.winDil : Nat) : Int)
      - batchGeom.padLo = ((i : Nat) : Int) := by
    simp [batchGeom]
  rw [h0]
  rw [if_pos ⟨Int.natCast_nonneg i, by
    show ((i : Nat) : Int).toNat % 1 = 0
    omega⟩]
  have hidx : ((i : Nat) : Int).toNat / batchGeom.baseDil = i := by
    show ((i : Nat) : Int).toNat / 1 = i
    omega
  rw [hidx, List.getElem?_eq_getElem hilt]

/-- Claim C9: for a windowed-reduction invocation with a batch axis at the
front of the operand, the batching rules prepend the degenerate window entry
and recurse, so the batched result equals stacking the unbatched results row
by row; a batch axis on an initial value is a hard error. Covers the generic
rule and the monoid rule. -/
theorem batch_rule_stacking {α : Type} (f : α → α → α) (init : α)
    (rows : List (List α)) (g : Geom) (n : Nat) (d : Nat)
    (hrows : ∀ r ∈ rows, r.length = n) :
    genericReduceWindowBatchRule f init (some d) rows g n = Except.error () ∧
    genericReduceWindowBatchRule f init none rows g n =
      Except.ok (rows.map (fun r => reduceWindow1 f init r g)) ∧
    reduceWindowBatchRule f init rows g n =
      rows.map (fun r => reduceWindow1 f init r g) := by
  refine ⟨rfl, ?_, ?_⟩
  · unfold genericReduceWindowBatchRule
    rw [if_neg (by simp)]
    rw [reduceWindow2_batch f init rows g n hrows]
  · exact reduceWindow2_batch f init rows g n hrows

/-- Witness for C9 on a concrete batched max reduction. -/
theorem batch_rule_stacking_witness :
    genericReduceWindowBatchRule XInt.maxv XInt.negInf (some 0)
        [[XInt.fin 1, XInt.fin 2]] poolGeom 2 = Except.error () ∧
    genericReduceWindowBatchRule XInt.maxv XInt.negInf none
        [[XInt.fin 1, XInt.fin 2]] poolGeom 2 =
      Except.ok ([[XInt.fin 1, XInt.fin 2]].map
        (fun r => reduceWindow1 XInt.maxv XInt.negInf r poolGeom)) ∧
    reduceWindowBatchRule XInt.maxv XInt.negInf
        [[XInt.fin 1, XInt.fin 2]] poolGeom 2 =
      [[XInt.fin 1, XInt.fin 2]].map
        (fun r => reduceWindow1 XInt.maxv XInt.negInf r poolGeom) :=
  batch_rule_stacking XInt.maxv XInt.negInf [[XInt.fin 1, XInt.fin 2]] poolGeom 2 0
    (by decide)

end WindowedReductions
